import Mathlib

/-!
Shallow embedding of the OCAD-8 file-format codec
(`src/file_format_ocad8.cpp` of kjetilk/mapper) and proofs about it.

Conventions of the embedding:
* C/C++ machine integers (`s16`, `s32`, `qint64`) are modelled as `ℤ`;
  where a claim is restricted to values representable in the relevant
  machine range, the range appears as an explicit hypothesis.
* C++ integer division truncates toward zero, so it is modelled by
  `Int.tdiv`; likewise `%` on nonnegative values by `Int.tmod`.
* Angles flow through the code as real radians that are always an
  integer-rational multiple of π; we model an angle by its rational
  coefficient of π (the real angle `c * π` is represented by `c : ℚ`,
  and the interval [0, 2π) becomes [0, 2)).
* Warnings collected by `Importer::addWarning` / `Exporter::addWarning`
  are modelled by a `Warning` inductive returned alongside each result,
  in emission order.
* The flat `OCADPoint` buffers holding point-symbol pattern elements are
  modelled as lists of already-delimited elements (`OCADElement`), each
  occupying `2 + npts` flat slots; the byte-exact iteration
  `p += 2 + elt->npts; while p < end` of the source is mirrored on that
  list under the exact-packing reading of the buffer.
* Types of the map model that are declared outside the given sources
  (`MapCoord` in particular) are modelled from the spec where noted.
-/

namespace Mapper

/-! ### Scalar codec -/

/-- Import size conversion, `qint64 OCAD8FileImport::convertSize(int ocad_size)`:
multiplies the legacy hundredths-of-a-millimeter value by 10 to obtain
modern 1/1000-mm units (`return ((qint64)ocad_size) * 10;`). -/
def importConvertSize (ocad_size : ℤ) : ℤ :=
  ocad_size * 10

/-- Export size conversion, `s32 OCAD8FileExport::convertSize(qint64 size)`:
divides the modern 1/1000-mm value by 10, truncating toward zero
(`return (s32)(size / 10);`). -/
def exportConvertSize (size : ℤ) : ℤ :=
  size.tdiv 10

/-- Fuel-indexed form of the rotation normalization loop
`while (a < 0) a += 2 * M_PI;` of `OCAD8FileImport::convertRotation`,
working on the coefficient of π. The fuel argument only makes the
recursion structural; callers pass enough fuel for the loop to reach its
fixed point, so the value agrees with the C++ loop. -/
def normalizeLoop : ℕ → ℚ → ℚ
  | 0, c => c
  | fuel + 1, c => if c < 0 then normalizeLoop fuel (c + 2) else c

/-- Import rotation conversion `float OCAD8FileImport::convertRotation(int angle)`,
in units of π: `a = (M_PI / 180) * (0.1f * angle)` has coefficient
`angle/1800`, and the result is normalized by repeatedly adding 2π while
negative. `angle.natAbs + 1` iterations always suffice for the loop. -/
def importConvertRotation (angle : ℤ) : ℚ :=
  normalizeLoop (angle.natAbs + 1) ((angle : ℚ) / 1800)

/-! ### Warnings -/

/-- Non-fatal warnings emitted by the codec paths embedded here. Each
constructor records the data interpolated into the human-readable
message of the source. -/
inductive Warning where
  /-- Importer message built from tr with the missing ordinal
  (`OCAD8FileImport::convertColor`). -/
  | colorNotFound (id : ℤ)
  /-- Pointed cap lengths for begin and end differ
  (`importLineSymbol`, bdist/edist). -/
  | pointedCapsDiffer (number bdist edist : ℤ)
  /-- End length cannot be imported correctly (dash special case). -/
  | dashEndLength (number : ℤ)
  /-- End gap cannot be imported correctly (dash special case). -/
  | dashEndGap (number : ℤ)
  /-- Main and end length are different (dash default case). -/
  | dashMainEndDiffer (number len elen : ℤ)
  /-- Gaps D and E are different (grouped dashes). -/
  | dashGapsDiffer (number gap2 egap : ℤ)
  /-- Left and right borders are different colors. -/
  | borderColorsDiffer (number lcolor rcolor : ℤ)
  /-- Left and right borders are different width. -/
  | borderWidthsDiffer (number lwidth rwidth : ℤ)
  /-- Ignoring that only the left border line should be dashed. -/
  | leftBorderDashOnly (number : ℤ)
  /-- Ignoring framing line (`fwidth > 0`). -/
  | framingLineIgnored (number : ℤ)
  /-- Exporter string-truncation warning; carries the text with the
  truncation marker inserted (`OCAD8FileExport::addStringTruncationWarning`). -/
  | stringTruncated (marked : List Char)
  deriving DecidableEq

/-! ### Color codec (import side) -/

/-- Ordinal-to-color registry built while reading the color table
(`ocad_color->number ↦ MapColor*`); modern color objects are modelled by
opaque handles `ℕ`. -/
def ColorMap := List (ℤ × ℕ)

/-- Lookup in the ordinal registry (`color_index.contains` / `operator[]`). -/
def lookupColor (cmap : ColorMap) (color : ℤ) : Option ℕ :=
  (cmap.find? (fun p => p.1 == color)).map Prod.snd

/-- Import color conversion `MapColor* OCAD8FileImport::convertColor(int color)`:
an unregistered ordinal yields a null reference plus a warning naming the
ordinal; a registered one yields its color and no warning. -/
def importConvertColor (cmap : ColorMap) (color : ℤ) : Option ℕ × List Warning :=
  match lookupColor cmap color with
  | none => (none, [Warning.colorNotFound color])
  | some c => (some c, [])

/-! ### Geometry: points, flags, path fill -/

/-- Decoded form of one legacy point after `ocad_point` unpacking:
position `buf[0], buf[1]` and the flag bits of `buf[2]`. The exact bit
positions live in libocad (outside the given sources); the flags are
modelled as booleans. -/
structure OCADPointD where
  x : ℤ := 0
  y : ℤ := 0
  ctl1 : Bool := false
  ctl2 : Bool := false
  dash : Bool := false
  corner : Bool := false
  hole : Bool := false
  deriving DecidableEq, Inhabited

/-- Modelled from the spec: `MapCoord` (declared outside the given
sources) is a position in 1/1000-mm units carrying boolean point flags
(curve-start, hole-point, dash-point, close-point). -/
structure MapCoordM where
  x : ℤ := 0
  y : ℤ := 0
  curveStart : Bool := false
  holePoint : Bool := false
  dashPoint : Bool := false
  closePoint : Bool := false
  deriving DecidableEq, Inhabited

/-- Modelled from the spec: `MapCoord::isPositionEqualTo` is raw integer
equality of the two positions, ignoring the flag bits. -/
def isPositionEqualTo (a b : MapCoordM) : Bool :=
  a.x == b.x && a.y == b.y

/-- Position-preserving flag update used by the close-part loop
(`object->coords[i].setClosePoint(true)`). -/
def setClosePoint (c : MapCoordM) : MapCoordM :=
  { c with closePoint := true }

/-- Import point conversion `OCAD8FileImport::convertPoint`:
multiply by 10, flip the Y axis (`offset_x` and `offset_y` are set to 0
in the constructor and never changed). -/
def importConvertPoint (x y : ℤ) : MapCoordM :=
  { x := 0 + x * 10, y := 0 + y * (-10) }

/-- Update the last element of a list in place; models a write to
`object->coords[i-1]`. On the empty list this is the identity (the
source guards the curve-start write with `i > 0`; for the area hole
write at `i = 0` the source would index out of bounds, modelled here as
a no-op). -/
def setLast (f : MapCoordM → MapCoordM) : List MapCoordM → List MapCoordM
  | [] => []
  | [c] => [f c]
  | c :: rest => c :: setLast f rest

/-- One iteration of the first loop of `OCAD8FileImport::fillPathCoords`:
convert the point, then apply the flag rules — `PX_CTL1` marks the
previous point as curve start, dash/corner mark this point as dash
point, and a hole flag marks the previous point (area) or this point
(non-area) as hole point. -/
def fillFlagsStep (is_area : Bool) (acc : List MapCoordM) (p : OCADPointD) : List MapCoordM :=
  let coord : MapCoordM :=
    { importConvertPoint p.x p.y with
      dashPoint := p.dash || p.corner,
      holePoint := p.hole && !is_area }
  let acc := if p.ctl1 then setLast (fun c => { c with curveStart := true }) acc else acc
  let acc := if p.hole && is_area then setLast (fun c => { c with holePoint := true }) acc else acc
  acc ++ [coord]

/-- First loop of `fillPathCoords`: conversion plus flag distribution. -/
def fillFlags (is_area : Bool) (pts : List OCADPointD) : List MapCoordM :=
  pts.foldl (fillFlagsStep is_area) []

/-- Models `object->coords.resize(npts)` followed by indexed reads
`pts[i]` for `i < npts`: reads past the supplied buffer (out of bounds
in C++) yield a default point. -/
def padPoints (npts : ℕ) (pts : List OCADPointD) : List OCADPointD :=
  (List.range npts).map (fun i => pts.getD i default)

/-- Fuel-indexed form of the closed-part loop of `fillPathCoords`
(run only for path objects):

for each index, skip while the point is no hole point and not the last
point; at a partition end, mark it as close point exactly when its
position equals the position of the partition start, then begin the next
partition. `start ≤ i` always holds, and fuel `cs.length - i` suffices. -/
def closeLoopAux : ℕ → List MapCoordM → ℕ → ℕ → List MapCoordM
  | 0, cs, _, _ => cs
  | fuel + 1, cs, start, i =>
    if i < cs.length then
      if (cs.getD i default).holePoint = false ∧ i < cs.length - 1 then
        closeLoopAux fuel cs start (i + 1)
      else
        closeLoopAux fuel
          (if isPositionEqualTo (cs.getD i default) (cs.getD start default)
            then cs.set i (setClosePoint (cs.getD i default)) else cs)
          (i + 1) (i + 1)
    else cs

/-- `void OCAD8FileImport::fillPathCoords(Object*, bool is_area, s16 npts, OCADPoint*)`:
convert and flag all points; for path objects additionally run the
closed-part detection loop. `is_path` tells whether the owning object is
a `PathObject` (`object->getType() == Object::Path`). -/
def fillPathCoords (is_path is_area : Bool) (npts : ℕ) (pts : List OCADPointD) :
    List MapCoordM :=
  let cs := fillFlags is_area (padPoints npts pts)
  if is_path then closeLoopAux cs.length cs 0 0 else cs

/-- Partition-end predicate of the closed-part loop: index `i` ends a
partition when it carries a hole flag or is the last index. -/
def isEndB (cs : List MapCoordM) (i : ℕ) : Bool :=
  (cs.getD i default).holePoint || (i == cs.length - 1)

/-- Value of the loop variable `start` when the closed-part loop,
entered at index `i` with start value `s`, reaches index `j ≥ i`:
each partition end at `k` resets the start to `k + 1`. -/
def startFrom (cs : List MapCoordM) (s i : ℕ) : ℕ → ℕ
  | 0 => s
  | j + 1 => if j + 1 ≤ i then s else if isEndB cs j then j + 1 else startFrom cs s i j

/-- Start index of the partition containing `j` when the loop runs from
the beginning of the sequence. -/
def partStart (cs : List MapCoordM) (j : ℕ) : ℕ :=
  startFrom cs 0 0 j

/-! ### Point-symbol patterns -/

/-- One pattern element of the flat `OCADPoint` buffer
(`OCADSymbolElement`): type tag (1 = line, 2 = area, 3 = circle,
4 = dot, as fixed by `exportSubPattern`), style fields, and its `npts`
trailing points (given here directly as the list `pts`). -/
structure OCADElement where
  typ : ℤ := 0
  flags : ℕ := 0
  color : ℤ := 0
  width : ℤ := 0
  diameter : ℤ := 0
  pts : List OCADPointD := []
  deriving DecidableEq, Inhabited

/-- Number of flat `OCADPoint` slots occupied by a list of elements:
each element takes `2 + npts` slots (the `p += (2 + elt->npts)` step). -/
def flatLen (elems : List OCADElement) : ℕ :=
  (elems.map (fun e => 2 + e.pts.length)).sum

/-- Symbol part of one element added by `PointSymbol::addElement`.
In `importPattern`, an added nested point symbol is always freshly
constructed and carries only the circle fields, never sub-elements of
its own, so the point case needs no recursion. -/
inductive ElemSym where
  | point (rotatable : Bool) (inner_color : Option ℕ) (inner_radius : ℤ)
      (outer_color : Option ℕ) (outer_width : ℤ)
  | line (line_width : ℤ) (color : Option ℕ)
  | area (color : Option ℕ)
  deriving DecidableEq

/-- Object part of one element (`PointObject` / `PathObject`): its
coordinate vector. -/
structure ElemObjM where
  coords : List MapCoordM := []
  deriving DecidableEq, Inhabited

/-- Modern point symbol, restricted to the fields touched by
`importPattern` and the line-symbol import. Field defaults model the
`PointSymbol` constructor (declared outside the given sources); no
claim below depends on a default the code does not overwrite. -/
structure PointSymbolM where
  rotatable : Bool := false
  inner_color : Option ℕ := none
  inner_radius : ℤ := 0
  outer_color : Option ℕ := none
  outer_width : ℤ := 0
  elements : List (ElemObjM × ElemSym) := []
  name : String := ""
  deriving DecidableEq, Inhabited

/-- Is an element a nested point symbol? -/
def isPointElem : ElemObjM × ElemSym → Bool
  | (_, ElemSym.point _ _ _ _ _) => true
  | _ => false

/-- One step of `importPattern` for the element under the cursor.
`multiple_elements = p + (2 + elt->npts) < end || p > pts` holds exactly
when the element is not the only one in the buffer: under exact packing,
`p > pts` means a predecessor exists (`isFirst = false`) and
`p + (2 + elt->npts) < end` means a successor exists (`rest ≠ []`). -/
def importPatternStep (cmap : ColorMap) (multiple_elements : Bool)
    (sym : PointSymbolM) (elt : OCADElement) : PointSymbolM × List Warning :=
  if elt.typ = 4 then
    -- OCAD_DOT_ELEMENT
    let inner_radius := (importConvertSize elt.diameter).tdiv 2
    if 0 < inner_radius then
      let cw := importConvertColor cmap elt.color
      if multiple_elements then
        ({ sym with elements := sym.elements ++
            [({ coords := [default] },
              ElemSym.point false cw.1 inner_radius none 0)] }, cw.2)
      else
        let sym' :=
          { sym with
              inner_color := cw.1, inner_radius := inner_radius,
              outer_color := none, outer_width := 0 }
        (sym', cw.2)
    else (sym, [])
  else if elt.typ = 3 then
    -- OCAD_CIRCLE_ELEMENT
    let inner_radius := (importConvertSize elt.diameter).tdiv 2 - importConvertSize elt.width
    let outer_width := importConvertSize elt.width
    if 0 < outer_width ∧ 0 < inner_radius then
      let cw := importConvertColor cmap elt.color
      if multiple_elements then
        ({ sym with elements := sym.elements ++
            [({ coords := [default] },
              ElemSym.point false none inner_radius cw.1 outer_width)] }, cw.2)
      else
        let sym' :=
          { sym with
              inner_color := none, inner_radius := inner_radius,
              outer_color := cw.1, outer_width := outer_width }
        (sym', cw.2)
    else (sym, [])
  else if elt.typ = 1 then
    -- OCAD_LINE_ELEMENT: a PathObject, so fillPathCoords runs its
    -- closed-part loop (is_area = false)
    let cw := importConvertColor cmap elt.color
    ({ sym with elements := sym.elements ++
        [({ coords := fillPathCoords true false elt.pts.length elt.pts },
          ElemSym.line (importConvertSize elt.width) cw.1)] }, cw.2)
  else if elt.typ = 2 then
    -- OCAD_AREA_ELEMENT
    let cw := importConvertColor cmap elt.color
    ({ sym with elements := sym.elements ++
        [({ coords := fillPathCoords true true elt.pts.length elt.pts },
          ElemSym.area cw.1)] }, cw.2)
  else (sym, [])

/-- The `while (p < end)` loop of `importPattern`; `isFirst` tracks
whether the cursor still equals the buffer start (`¬(p > pts)`). -/
def importPatternLoop (cmap : ColorMap) :
    List OCADElement → Bool → PointSymbolM → PointSymbolM × List Warning
  | [], _, sym => (sym, [])
  | elt :: rest, isFirst, sym =>
    let multiple_elements := !rest.isEmpty || !isFirst
    let r := importPatternStep cmap multiple_elements sym elt
    let rRest := importPatternLoop cmap rest false r.1
    (rRest.1, r.2 ++ rRest.2)

/-- `PointSymbol* OCAD8FileImport::importPattern(s16 npts, OCADPoint* pts)`:
fresh rotatable point symbol, then the element loop. -/
def importPattern (cmap : ColorMap) (elems : List OCADElement) :
    PointSymbolM × List Warning :=
  importPatternLoop cmap elems true { rotatable := true }

/-- Modelled from the spec (a second definition following the spec's
words, for comparison with `importPattern`): the number of drawable
elements of a pattern — elements that produce visible content. A dot
draws something when its converted radius is positive, a circle when
both its converted width and remaining inner radius are positive; line
and area elements always count. -/
def specDrawableCount (elems : List OCADElement) : ℕ :=
  (elems.filter (fun e =>
    if e.typ = 4 then 0 < (importConvertSize e.diameter).tdiv 2
    else if e.typ = 3 then
      0 < importConvertSize e.width ∧
      0 < (importConvertSize e.diameter).tdiv 2 - importConvertSize e.width
    else e.typ = 1 ∨ e.typ = 2)).length

/-! ### Line symbols -/

/-- Legacy line symbol record (`OCADLineSymbol`), with the five flat
pattern buffers given as element lists and the `s*npts` counts derived
from them by `flatLen` under exact packing. -/
structure OCADLineSymbol where
  number : ℤ := 0
  status : ℕ := 0
  name : List ℕ := []
  width : ℤ := 0
  color : ℤ := 0
  ends : ℤ := 0
  bdist : ℤ := 0
  edist : ℤ := 0
  len : ℤ := 0
  elen : ℤ := 0
  gap : ℤ := 0
  gap2 : ℤ := 0
  egap : ℤ := 0
  dmode : ℤ := 0
  dwidth : ℤ := 0
  dflags : ℕ := 0
  dcolor : ℤ := 0
  lwidth : ℤ := 0
  rwidth : ℤ := 0
  lcolor : ℤ := 0
  rcolor : ℤ := 0
  dlen : ℤ := 0
  dgap : ℤ := 0
  fwidth : ℤ := 0
  smn_elems : List OCADElement := []
  scn_elems : List OCADElement := []
  sbn_elems : List OCADElement := []
  sen_elems : List OCADElement := []
  ssnpts : ℕ := 0
  snum : ℤ := 0
  sdist : ℤ := 0
  deriving DecidableEq, Inhabited

/-- Cap styles of the modern line symbol. -/
inductive CapStyle where
  | flat | round | pointed | square
  deriving DecidableEq, Inhabited

/-- Join styles of the modern line symbol. -/
inductive JoinStyle where
  | bevel | miter | round
  deriving DecidableEq, Inhabited

/-- Common symbol fields set by `fillCommonSymbolFields`; defaults are
the `Symbol::Symbol` constructor values (src/symbol.cpp). -/
structure CommonFieldsM where
  name : List ℕ := []
  number0 : ℤ := -1
  number1 : ℤ := -1
  number2 : ℤ := -1
  is_helper_symbol : Bool := false
  is_hidden : Bool := false
  is_protected : Bool := false
  deriving DecidableEq, Inhabited

/-- Import-side Pascal string decode
`QString OCAD8FileImport::convertPascalString(const char* p)`: first
byte is the length, the following bytes are the payload (the
single-byte text codec is modelled as the identity on bytes). -/
def importPascalString (bytes : List ℕ) : List ℕ :=
  (bytes.drop 1).take (bytes.headD 0)

/-- `void OCAD8FileImport::fillCommonSymbolFields`: decode the name, split
the legacy number as `number / 10 . number % 10 . -1`, and copy the
protected/hidden status bits (the fields start at the constructor
values `false`). -/
def fillCommonSymbolFields (number : ℤ) (status : ℕ) (name : List ℕ) : CommonFieldsM :=
  { name := importPascalString name,
    number0 := number.tdiv 10,
    number1 := number.tmod 10,
    number2 := -1,
    is_helper_symbol := false,
    is_protected := status.testBit 0,
    is_hidden := status.testBit 1 }

/-- Modern line symbol, restricted to the fields the import touches.
Defaults of the `LineSymbol` constructor are outside the given sources;
the ones a claim depends on are modelled from the spec — in particular
`dashes_in_group = 1` (spec §8: the default dash case decodes with
`dashes_in_group = 1` without the code assigning that field). -/
structure LineSymbolM where
  common : CommonFieldsM := {}
  minimum_length : ℤ := 0
  line_width : ℤ := 0
  color : Option ℕ := none
  cap_style : CapStyle := CapStyle.flat
  join_style : JoinStyle := JoinStyle.miter
  pointed_cap_length : ℤ := 0
  dashed : Bool := false
  dash_length : ℤ := 0
  break_length : ℤ := 0
  dashes_in_group : ℤ := 1
  in_group_break_length : ℤ := 0
  half_outer_dashes : Bool := false
  segment_length : ℤ := 0
  end_length : ℤ := 0
  have_border_lines : Bool := false
  border_color : Option ℕ := none
  border_width : ℤ := 0
  border_shift : ℤ := 0
  dashed_border : Bool := false
  border_dash_length : ℤ := 0
  border_break_length : ℤ := 0
  mid_symbol : Option PointSymbolM := none
  dash_symbol : Option PointSymbolM := none
  start_symbol : Option PointSymbolM := none
  end_symbol : Option PointSymbolM := none
  mid_symbols_per_spot : ℤ := 0
  mid_symbol_distance : ℤ := 0
  minimum_mid_symbol_count : ℤ := 0
  minimum_mid_symbol_count_when_closed : ℤ := 0
  show_at_least_one_symbol : Bool := true
  deriving DecidableEq, Inhabited

/-- Cap/join decode table of `importLineSymbol` (`ends` values 0-6;
unknown values leave the constructor values in place). -/
def applyCapJoin (ends : ℤ) (L : LineSymbolM) : LineSymbolM :=
  if ends = 0 then { L with cap_style := CapStyle.flat, join_style := JoinStyle.bevel }
  else if ends = 1 then { L with cap_style := CapStyle.round, join_style := JoinStyle.round }
  else if ends = 2 then { L with cap_style := CapStyle.pointed, join_style := JoinStyle.bevel }
  else if ends = 3 then { L with cap_style := CapStyle.pointed, join_style := JoinStyle.round }
  else if ends = 4 then { L with cap_style := CapStyle.flat, join_style := JoinStyle.miter }
  else if ends = 6 then { L with cap_style := CapStyle.pointed, join_style := JoinStyle.miter }
  else L

/-- Main-line part of `importLineSymbol` (imported when
`dmode == 0 || width > 0`): basic options, cap/join, pointed-cap
handling, and the dash pattern decode. -/
def importMainLine (cmap : ColorMap) (s : OCADLineSymbol) :
    Option LineSymbolM × List Warning :=
  if s.dmode = 0 ∨ 0 < s.width then
    let r : LineSymbolM × List Warning :=
      let L : LineSymbolM :=
        { common := fillCommonSymbolFields s.number s.status s.name,
          minimum_length := 0,
          line_width := importConvertSize s.width }
      let cw := importConvertColor cmap s.color
      let L := applyCapJoin s.ends { L with color := cw.1 }
      let rp : LineSymbolM × List Warning :=
        if L.cap_style = CapStyle.pointed then
          let w := if s.bdist ≠ s.edist
            then [Warning.pointedCapsDiffer s.number s.bdist s.edist] else []
          let L' :=
            { L with
                pointed_cap_length := importConvertSize ((s.bdist + s.edist).tdiv 2),
                join_style := JoinStyle.round }
          (L', w)
        else (L, [])
      let rd : LineSymbolM × List Warning :=
        if 0 < s.gap ∨ 0 < s.gap2 then
          let L := { rp.1 with dashed := true }
          if 0 < s.gap2 ∧ s.gap = 0 then
            let L :=
              { L with
                  dash_length := importConvertSize (s.len - s.gap2),
                  break_length := importConvertSize s.gap2 }
            let w1 := if ¬ (s.len.tdiv 2 - 1 ≤ s.elen ∧ s.elen ≤ s.len.tdiv 2 + 1)
              then [Warning.dashEndLength s.number] else []
            let w2 := if s.egap ≠ 0 then [Warning.dashEndGap s.number] else []
            (L, w1 ++ w2)
          else
            let r1 : LineSymbolM × List Warning :=
              if s.len ≠ s.elen then
                if s.len.tdiv 2 - 1 ≤ s.elen ∧ s.elen ≤ s.len.tdiv 2 + 1 then
                  ({ L with half_outer_dashes := true }, [])
                else (L, [Warning.dashMainEndDiffer s.number s.len s.elen])
              else (L, [])
            let L :=
              { r1.1 with
                  dash_length := importConvertSize s.len,
                  break_length := importConvertSize s.gap }
            if 0 < s.gap2 then
              let w2 := if s.gap2 ≠ s.egap
                then [Warning.dashGapsDiffer s.number s.gap2 s.egap] else []
              let L :=
                { L with
                    dashes_in_group := 2,
                    in_group_break_length := importConvertSize s.gap2 }
              (({ L with dash_length := (L.dash_length - L.in_group_break_length).tdiv 2 }),
                r1.2 ++ w2)
            else (L, r1.2)
        else
          let L' :=
            { rp.1 with
                segment_length := importConvertSize s.len,
                end_length := importConvertSize s.elen }
          (L', [])
      (rd.1, cw.2 ++ rp.2 ++ rd.2)
    (some r.1, r.2)
  else (none, [])

/-- Double-line part of `importLineSymbol` (imported when `dmode != 0`):
width, optional fill color, border lines with asymmetry warnings, and
the dashed border. -/
def importDoubleLine (cmap : ColorMap) (s : OCADLineSymbol) :
    Option LineSymbolM × List Warning :=
  if s.dmode ≠ 0 then
    let r : LineSymbolM × List Warning :=
      let L : LineSymbolM :=
        { common := fillCommonSymbolFields s.number s.status s.name,
          line_width := importConvertSize s.dwidth }
      let cw := if s.dflags.testBit 0
        then importConvertColor cmap s.dcolor else (none, [])
      let L :=
        { L with
            color := cw.1,
            cap_style := CapStyle.flat, join_style := JoinStyle.miter,
            segment_length := importConvertSize s.len,
            end_length := importConvertSize s.elen }
      let rb : LineSymbolM × List Warning :=
        if 0 < s.lwidth ∨ 0 < s.rwidth then
          let L := { L with have_border_lines := true }
          let w1 := if s.lcolor ≠ s.rcolor
            then [Warning.borderColorsDiffer s.number s.lcolor s.rcolor] else []
          let bcw := importConvertColor cmap s.lcolor
          let w2 := if s.lwidth ≠ s.rwidth
            then [Warning.borderWidthsDiffer s.number s.lwidth s.rwidth] else []
          let L :=
            { L with
                border_color := bcw.1,
                border_width := importConvertSize s.lwidth,
                border_shift := (importConvertSize s.lwidth).tdiv 2 }
          let rd : LineSymbolM × List Warning :=
            if 0 < s.dgap ∧ 1 < s.dmode then
              let L :=
                { L with
                    dashed_border := true,
                    border_dash_length := importConvertSize s.dlen,
                    border_break_length := importConvertSize s.dgap }
              (L, if s.dmode = 2 then [Warning.leftBorderDashOnly s.number] else [])
            else (L, [])
          (rd.1, w1 ++ bcw.2 ++ w2 ++ rd.2)
        else (L, [])
      (rb.1, cw.2 ++ rb.2)
    (some r.1, r.2)
  else (none, [])

/-- Attachment of mid/dash/start/end point symbols to the chosen line
(`symbol_line` in the source); in C++ this dereferences `symbol_line`,
so it is only ever applied to a line that exists. The secondary pattern
(`ssnpts`) is skipped in the source (its import is commented out); the
cursor just advances past it. -/
def attachPointSymbols (cmap : ColorMap) (s : OCADLineSymbol) (L : LineSymbolM) :
    LineSymbolM × List Warning :=
  let rm := importPattern cmap s.smn_elems
  let L :=
    { L with
        mid_symbol := some rm.1,
        mid_symbols_per_spot := s.snum,
        mid_symbol_distance := importConvertSize s.sdist }
  let r2 : LineSymbolM × List Warning :=
    if 0 < flatLen s.scn_elems then
      let rd := importPattern cmap s.scn_elems
      ({ L with dash_symbol := some { rd.1 with name := "Dash symbol" } }, rd.2)
    else (L, [])
  let r3 : LineSymbolM × List Warning :=
    if 0 < flatLen s.sbn_elems then
      let rs := importPattern cmap s.sbn_elems
      ({ r2.1 with start_symbol := some { rs.1 with name := "Start symbol" } }, rs.2)
    else (r2.1, [])
  let r4 : LineSymbolM × List Warning :=
    if 0 < flatLen s.sen_elems then
      let re := importPattern cmap s.sen_elems
      ({ r3.1 with end_symbol := some re.1 }, re.2)
    else (r3.1, [])
  let L :=
    { r4.1 with
        minimum_mid_symbol_count := 0,
        minimum_mid_symbol_count_when_closed := 0,
        show_at_least_one_symbol := false }
  (L, rm.2 ++ r2.2 ++ r3.2 ++ r4.2)

/-- Synthetic combined symbol wrapping main and double line. -/
structure CombinedLineM where
  common : CommonFieldsM := {}
  part0 : LineSymbolM
  part1 : LineSymbolM
  deriving DecidableEq

/-- Result of `importLineSymbol`: a single line symbol or a combined
symbol with two parts. -/
inductive LineImportResult where
  | line (L : LineSymbolM)
  | combined (c : CombinedLineM)
  deriving DecidableEq

/-- The part of a line import result that carries the main-line data
(for a plain line the line itself, for a combined symbol part 0). -/
def LineImportResult.mainPart : LineImportResult → LineSymbolM
  | LineImportResult.line L => L
  | LineImportResult.combined c => c.part0

/-- Chosen line for sub-symbol attachment,
`LineSymbol* symbol_line = main_line ? main_line : double_line`. -/
def chosenSymbolLine (cmap : ColorMap) (s : OCADLineSymbol) : Option LineSymbolM :=
  match (importMainLine cmap s).1 with
  | some m => some m
  | none => (importDoubleLine cmap s).1

/-- `Symbol* OCAD8FileImport::importLineSymbol(const OCADLineSymbol*)`:
builds main and double line, attaches the point symbols to the chosen
line, warn about a framing line, and return the line — or, when both
exist, a combined symbol whose parts have hidden/protected forced
false. The case with neither line would dereference a null pointer in
the source and is modelled as `none` (proved unreachable below). -/
def importLineSymbol (cmap : ColorMap) (s : OCADLineSymbol) :
    Option LineImportResult × List Warning :=
  let rMain := importMainLine cmap s
  let rDbl := importDoubleLine cmap s
  let wf := if 0 < s.fwidth then [Warning.framingLineIgnored s.number] else []
  match rMain.1, rDbl.1 with
  | none, none => (none, rMain.2 ++ rDbl.2 ++ wf)
  | some m, none =>
    let ra := attachPointSymbols cmap s m
    (some (LineImportResult.line ra.1), rMain.2 ++ rDbl.2 ++ ra.2 ++ wf)
  | none, some d =>
    let ra := attachPointSymbols cmap s d
    (some (LineImportResult.line ra.1), rMain.2 ++ rDbl.2 ++ ra.2 ++ wf)
  | some m, some d =>
    let ra := attachPointSymbols cmap s m
    let p0 :=
      { ra.1 with
          common := { ra.1.common with is_hidden := false, is_protected := false } }
    let p1 :=
      { d with
          common := { d.common with is_hidden := false, is_protected := false } }
    let full : CombinedLineM :=
      { common := fillCommonSymbolFields s.number s.status s.name,
        part0 := p0, part1 := p1 }
    (some (LineImportResult.combined full), rMain.2 ++ rDbl.2 ++ ra.2 ++ wf)

/-! ### Objects (import) -/

/-- Legacy object record fields used by the point branch of
`importObject`. -/
structure OCADObjectD where
  symbol : ℤ := 0
  typ : ℤ := 0
  angle : ℤ := 0
  npts : ℕ := 0
  pts : List OCADPointD := []
  deriving DecidableEq, Inhabited

/-- Modern point object: optional rotation (in units of π) and the
coordinate vector. -/
structure PointObjectM where
  rotation : Option ℚ := none
  coords : List MapCoordM := []
  deriving DecidableEq

/-- Point branch of `Object* OCAD8FileImport::importObject`: the
rotation rules of the source (with the symbol's rotatable/symmetrical
state passed in, their definitions being outside the given sources),
then `fillPathCoords(p, false, 1, pts)` — only 1 coordinate is allowed,
even if the OCAD object claims more. A `PointObject` is not a path
object, so the closed-part loop does not run. -/
def importPointObject (rotatable symmetrical : Bool) (obj : OCADObjectD) : PointObjectM :=
  let rotation :=
    if rotatable then some (importConvertRotation obj.angle)
    else if obj.angle ≠ 0 ∧ symmetrical = false
      then some (importConvertRotation obj.angle)
    else none
  { rotation := rotation,
    coords := fillPathCoords false false 1 obj.pts }

/-! ### Export: Pascal strings -/

/-- `void OCAD8FileExport::addStringTruncationWarning(const QString&, int)`:
the warning text is the original with three pipe characters inserted at
the truncation position. -/
def addStringTruncationWarning (text : List Char) (truncation_pos : ℕ) : Warning :=
  Warning.stringTruncated
    (text.take truncation_pos ++ ['|', '|', '|'] ++ text.drop truncation_pos)

/-- Result of the export-side Pascal string conversion: the length byte
written to `buffer[0]`, the payload bytes, and the warnings emitted. -/
structure PascalResult where
  lengthByte : ℕ
  payload : List ℕ
  warnings : List Warning
  deriving DecidableEq

/-- `void OCAD8FileExport::convertPascalString(const QString& text, char* buffer, int buffer_size)`:
warn when the text exceeds `buffer_size - 1`, then write
`min(text.length, buffer_size - 1)` as length byte and copy that many
encoded bytes. The single-byte codec is modelled as one byte per
character via `enc`. -/
def exportConvertPascalString (enc : Char → ℕ) (text : List Char) (buffer_size : ℕ) :
    PascalResult :=
  let max_size := buffer_size - 1
  let warnings := if max_size < text.length
    then [addStringTruncationWarning text max_size] else []
  let data := text.map enc
  let min_size := min text.length max_size
  { lengthByte := min_size, payload := data.take min_size, warnings := warnings }

/-! ### Export: unique symbol numbers -/

/-- Fuel-indexed form of the probing loop of `exportCommonSymbolFields`
(`while (symbol_numbers.find(number) != end()) ++number;`): increment
while the candidate is taken. `s.card + 1` fuel always suffices. -/
def probeFuel : ℕ → Finset ℤ → ℤ → ℤ
  | 0, _, n => n
  | fuel + 1, s, n => if n ∈ s then probeFuel fuel s (n + 1) else n

/-- Probing a symbol number against the set of already-assigned numbers. -/
def probe (s : Finset ℤ) (n : ℤ) : ℤ :=
  probeFuel (s.card + 1) s n

/-- Initial legacy number of a symbol before probing:
`number = comp0 * 10; if (comp1 >= 0) number += comp1 % 10;`. -/
def initialSymbolNumber (comp0 comp1 : ℤ) : ℤ :=
  comp0 * 10 + (if 0 ≤ comp1 then comp1.tmod 10 else 0)

/-- The number-assignment sequence of one export run: each emitted
symbol record (including lazily-cloned text symbols) probes its
candidate number against the taken set, registers the result, and the
process continues with the grown set. -/
def assignAll (s : Finset ℤ) : List ℤ → List ℤ
  | [] => []
  | n :: rest =>
    let m := probe s n
    m :: assignAll (insert m s) rest

end Mapper

open Mapper

/-! ## Helper lemmas -/

theorem normalizeLoop_nonneg (fuel : ℕ) (c : ℚ) (h : -c ≤ 2 * fuel) :
    0 ≤ normalizeLoop fuel c := by
  induction fuel generalizing c with
  | zero =>
    simp only [normalizeLoop]
    simpa using h
  | succ n ih =>
    simp only [normalizeLoop]
    split
    · apply ih
      push_cast at h ⊢
      linarith
    · linarith [not_lt.mp (by assumption : ¬ c < 0)]

theorem normalizeLoop_lt_two (fuel : ℕ) (c : ℚ) (h : c < 2) :
    normalizeLoop fuel c < 2 := by
  induction fuel generalizing c with
  | zero => simpa [normalizeLoop] using h
  | succ n ih =>
    simp only [normalizeLoop]
    split
    · exact ih _ (by linarith [(by assumption : c < 0)])
    · exact h

theorem normalizeLoop_of_nonneg (fuel : ℕ) (c : ℚ) (h : 0 ≤ c) :
    normalizeLoop fuel c = c := by
  cases fuel with
  | zero => rfl
  | succ n => simp [normalizeLoop, not_lt.mpr h]

theorem importConvertRotation_nonneg (angle : ℤ) :
    0 ≤ importConvertRotation angle := by
  apply normalizeLoop_nonneg
  rcases le_or_lt 0 angle with h | h
  · have : (0:ℚ) ≤ (angle : ℚ) / 1800 := by positivity
    push_cast
    linarith
  · have hneg : (angle : ℚ) < 0 := by exact_mod_cast h
    have h1 : -((angle : ℚ) / 1800) ≤ -(angle : ℚ) := by
      rw [← neg_div]
      exact div_le_self (by linarith) (by norm_num)
    have h2 : -(angle : ℚ) = (angle.natAbs : ℚ) := by
      rw [Int.cast_natAbs]
      simp [abs_of_neg hneg]
    push_cast
    push_cast at h2
    linarith

/-! ## C1 -/

/-- C1: size conversion round-trips exactly. Import multiplies by exactly
10, export divides by exactly 10 (truncating): `encodeSize (decodeSize y) = y`
for every legacy `s32` value `y`, and `decodeSize (encodeSize x) = x` for
every modern value `x` that is a multiple of 10 and whose exported value
is representable as `s32`. -/
theorem C1_convertSize_roundtrip (y x : ℤ)
    (hy₁ : -(2^31) ≤ y) (hy₂ : y ≤ 2^31 - 1)
    (hx₁ : -(2^31) * 10 ≤ x) (hx₂ : x ≤ (2^31 - 1) * 10)
    (hx₁₀ : (10 : ℤ) ∣ x) :
    exportConvertSize (importConvertSize y) = y ∧
    importConvertSize (exportConvertSize x) = x := by
  constructor
  · unfold importConvertSize exportConvertSize
    exact Int.mul_tdiv_cancel y (by norm_num)
  · unfold importConvertSize exportConvertSize
    obtain ⟨c, rfl⟩ := hx₁₀
    rw [Int.mul_tdiv_cancel_left c (by norm_num)]
    ring

/-- Witness for C1 at `y = -37`, `x = 1230`. -/
theorem C1_convertSize_roundtrip_witness :
    exportConvertSize (importConvertSize (-37)) = -37 ∧
    importConvertSize (exportConvertSize 1230) = 1230 :=
  C1_convertSize_roundtrip (-37) 1230 (by decide) (by decide) (by decide)
    (by decide) (by decide)

/-! ## C2 -/

/-- C2 counterexample: at input `a = 3600` (i.e. 360.0 degrees) the
decoded rotation is exactly 2π (coefficient 2), which is not in
[0, 2π) — the loop only adds 2π while negative and never reduces values
at or above 2π. -/
theorem C2_rotation_counterexample :
    importConvertRotation 3600 = 2 ∧ ¬ (importConvertRotation 3600 < 2) := by
  have h : importConvertRotation 3600 = 2 := by
    unfold importConvertRotation
    rw [show (((3600 : ℤ) : ℚ) / 1800) = 2 by norm_num]
    exact normalizeLoop_of_nonneg _ _ (by norm_num)
  exact ⟨h, by rw [h]; norm_num⟩

/-- C2 (amended): for every integer tenths-of-degree input `a`, the
imported rotation is nonnegative, and it lies in [0, 2π) (coefficient in
[0, 2)) whenever `a < 3600`; for `a ≥ 3600` no downward normalization is
performed. -/
theorem C2_rotation_normalized (a : ℤ) :
    0 ≤ importConvertRotation a ∧ (a < 3600 → importConvertRotation a < 2) := by
  refine ⟨importConvertRotation_nonneg a, fun h => ?_⟩
  unfold importConvertRotation
  apply normalizeLoop_lt_two
  rw [div_lt_iff₀ (by norm_num : (0:ℚ) < 1800)]
  norm_num
  exact_mod_cast h

/-- Witness for C2 at `a = -5`. -/
theorem C2_rotation_normalized_witness :
    0 ≤ importConvertRotation (-5) ∧ importConvertRotation (-5) < 2 :=
  ⟨(C2_rotation_normalized (-5)).1, (C2_rotation_normalized (-5)).2 (by norm_num)⟩

/-! ## C9 (path fill length lemmas) -/

theorem setLast_length (f : MapCoordM → MapCoordM) :
    ∀ cs, (setLast f cs).length = cs.length
  | [] => rfl
  | [_] => rfl
  | c :: d :: tl => by
    simp only [setLast, List.length_cons]
    rw [← List.length_cons d tl, setLast_length f (d :: tl), List.length_cons]

theorem fillFlagsStep_length (is_area : Bool) (acc : List MapCoordM) (p : OCADPointD) :
    (fillFlagsStep is_area acc p).length = acc.length + 1 := by
  simp only [fillFlagsStep]
  split <;> split <;> simp [setLast_length]

theorem foldl_fillFlagsStep_length (is_area : Bool) (pts : List OCADPointD) :
    ∀ acc : List MapCoordM,
      (pts.foldl (fillFlagsStep is_area) acc).length = acc.length + pts.length := by
  induction pts with
  | nil => intro acc; simp
  | cons p rest ih =>
    intro acc
    rw [List.foldl_cons, ih, fillFlagsStep_length]
    simp only [List.length_cons]
    omega

theorem fillFlags_length (is_area : Bool) (pts : List OCADPointD) :
    (fillFlags is_area pts).length = pts.length := by
  unfold fillFlags
  rw [foldl_fillFlagsStep_length]
  simp

theorem padPoints_length (npts : ℕ) (pts : List OCADPointD) :
    (padPoints npts pts).length = npts := by
  simp [padPoints]

/-- C9: an imported point object has exactly one coordinate, whatever
the legacy object record claims (`importObject` passes `npts = 1` to
`fillPathCoords`, which resizes the coordinate vector to that count). -/
theorem C9_point_object_single_coordinate (rotatable symmetrical : Bool)
    (obj : OCADObjectD) :
    (importPointObject rotatable symmetrical obj).coords.length = 1 := by
  simp [importPointObject, fillPathCoords, fillFlags_length, padPoints_length]

/-! ## C5 -/

/-- C5: export-side Pascal string encoding truncates to
`fieldWidth - 1` bytes; when truncation occurs a warning carrying the
text with the marker inserted at the cut point is recorded (and only
then), and the written length byte equals the truncated length. -/
theorem C5_pascal_truncation (enc : Char → ℕ) (text : List Char) (buffer_size : ℕ)
    (hb₁ : 1 ≤ buffer_size) (hb₂ : buffer_size ≤ 256) :
    (exportConvertPascalString enc text buffer_size).payload.length
        = min text.length (buffer_size - 1) ∧
    (exportConvertPascalString enc text buffer_size).lengthByte
        = min text.length (buffer_size - 1) ∧
    (buffer_size - 1 < text.length →
      (exportConvertPascalString enc text buffer_size).warnings
        = [addStringTruncationWarning text (buffer_size - 1)]) ∧
    (text.length ≤ buffer_size - 1 →
      (exportConvertPascalString enc text buffer_size).warnings = []) := by
  refine ⟨?_, ?_, ?_, ?_⟩
  · simp only [exportConvertPascalString, List.length_take, List.length_map]
    omega
  · rfl
  · intro h
    simp [exportConvertPascalString, h]
  · intro h
    simp [exportConvertPascalString, not_lt.mpr h]

/-- Witness for C5: a 300-character string into a 32-byte field gives a
31-byte payload, length byte 31, and exactly the truncation warning
with the marker at position 31. -/
theorem C5_pascal_truncation_witness :
    (exportConvertPascalString (fun c => c.toNat % 256)
      (List.replicate 300 'a') 32).payload.length = 31 ∧
    (exportConvertPascalString (fun c => c.toNat % 256)
      (List.replicate 300 'a') 32).lengthByte = 31 ∧
    (exportConvertPascalString (fun c => c.toNat % 256)
      (List.replicate 300 'a') 32).warnings
      = [addStringTruncationWarning (List.replicate 300 'a') 31] := by
  have h := C5_pascal_truncation (fun c => c.toNat % 256)
    (List.replicate 300 'a') 32 (by norm_num) (by norm_num)
  obtain ⟨p1, p2, p3, -⟩ := h
  norm_num [List.length_replicate] at p1 p2 p3
  exact ⟨p1, p2, p3⟩

/-! ## C6 -/

/-- C6: converting an unregistered legacy color ordinal yields a null
color reference plus one warning naming the ordinal; concretely, a line
symbol referencing unregistered ordinal 77 imports with a null color,
exactly one warning naming 77, and the import still produces a symbol.
-/
theorem C6_unknown_color_ordinal :
    (∀ (cmap : ColorMap) (color : ℤ), lookupColor cmap color = none →
      importConvertColor cmap color = (none, [Warning.colorNotFound color])) ∧
    ((importLineSymbol [] { color := 77 }).1.map
        (fun r => r.mainPart.color) = some none ∧
      (importLineSymbol [] { color := 77 }).2 = [Warning.colorNotFound 77] ∧
      (importLineSymbol [] { color := 77 }).1.isSome = true) := by
  constructor
  · intro cmap color h
    unfold importConvertColor
    rw [h]
  · refine ⟨rfl, rfl, rfl⟩

/-- Witness for C6 at the empty registry and ordinal 77. -/
theorem C6_unknown_color_ordinal_witness :
    importConvertColor [] 77 = (none, [Warning.colorNotFound 77]) :=
  C6_unknown_color_ordinal.1 [] 77 rfl

/-! ## C7 -/

theorem probeFuel_not_mem (fuel : ℕ) :
    ∀ (s : Finset ℤ) (n : ℤ),
      (s.filter (fun m => n ≤ m ∧ m < n + (fuel : ℤ))).card < fuel →
      probeFuel fuel s n ∉ s := by
  induction fuel with
  | zero =>
    intro s n h
    exact absurd h (Nat.not_lt_zero _)
  | succ f ih =>
    intro s n h
    by_cases hn : n ∈ s
    · simp only [probeFuel, if_pos hn]
      apply ih
      have key : insert n (s.filter (fun m => n + 1 ≤ m ∧ m < (n + 1) + (f : ℤ))) ⊆
          s.filter (fun m => n ≤ m ∧ m < n + ((f : ℤ) + 1)) := by
        intro m hm
        rcases Finset.mem_insert.mp hm with rfl | hm
        · exact Finset.mem_filter.mpr ⟨hn, le_refl m, by linarith⟩
        · obtain ⟨hms, h1, h2⟩ := Finset.mem_filter.mp hm
          exact Finset.mem_filter.mpr ⟨hms, by linarith, by linarith⟩
      have hnotin : n ∉ s.filter (fun m => n + 1 ≤ m ∧ m < (n + 1) + (f : ℤ)) := by
        simp only [Finset.mem_filter]
        rintro ⟨-, h1, -⟩
        omega
      have hcard := Finset.card_le_card key
      rw [Finset.card_insert_of_not_mem hnotin] at hcard
      push_cast at h
      omega
    · simpa only [probeFuel, if_neg hn] using hn

theorem probe_not_mem (s : Finset ℤ) (n : ℤ) : probe s n ∉ s := by
  apply probeFuel_not_mem
  have h := Finset.card_filter_le s (fun m => n ≤ m ∧ m < n + ((s.card + 1 : ℕ) : ℤ))
  omega

theorem assignAll_spec (reqs : List ℤ) :
    ∀ s : Finset ℤ,
      (assignAll s reqs).Nodup ∧ ∀ m ∈ assignAll s reqs, m ∉ s := by
  induction reqs with
  | nil => intro s; simp [assignAll]
  | cons n rest ih =>
    intro s
    obtain ⟨ihn, ihm⟩ := ih (insert (probe s n) s)
    simp only [assignAll]
    constructor
    · refine List.nodup_cons.mpr ⟨fun hmem => ?_, ihn⟩
      exact (ihm _ hmem) (Finset.mem_insert_self _ _)
    · intro m hm
      rcases List.mem_cons.mp hm with rfl | hm
      · exact probe_not_mem s n
      · exact fun hms => (ihm _ hm) (Finset.mem_insert_of_mem hms)

/-- C7: within one export run the assigned legacy symbol numbers are
pairwise distinct: every emitted record's candidate number (built by
`initialSymbolNumber` from its number components) is probed against the
already-assigned set and incremented until free before being
registered, so the emitted sequence has no duplicates — and none of the
numbers collides with a number already reserved before the run. -/
theorem C7_unique_symbol_numbers (s₀ : Finset ℤ) (syms : List (ℤ × ℤ)) :
    (assignAll s₀ (syms.map (fun p => initialSymbolNumber p.1 p.2))).Nodup ∧
    ∀ m ∈ assignAll s₀ (syms.map (fun p => initialSymbolNumber p.1 p.2)), m ∉ s₀ :=
  assignAll_spec _ s₀

/-- Witness for C7: two symbols both numbered 10.1 on an empty reserved
set get the distinct numbers 101 and 102. -/
theorem C7_unique_symbol_numbers_witness :
    (assignAll ∅ ([((10 : ℤ), (1 : ℤ)), (10, 1)].map
      (fun p => initialSymbolNumber p.1 p.2))).Nodup ∧
    ∀ m ∈ assignAll ∅ ([((10 : ℤ), (1 : ℤ)), (10, 1)].map
      (fun p => initialSymbolNumber p.1 p.2)), m ∉ (∅ : Finset ℤ) :=
  C7_unique_symbol_numbers ∅ [(10, 1), (10, 1)]

/-! ## C10 -/

/-- C10: a decoded legacy line symbol always yields at least one line:
the main line exists exactly when `dmode == 0` or `width > 0` and the
double line exactly when `dmode != 0`, so the chosen attachment target
`symbol_line` is never null and `importLineSymbol` always returns a
symbol. -/
theorem C10_line_symbol_never_null (cmap : ColorMap) (s : OCADLineSymbol) :
    ((importMainLine cmap s).1.isSome ↔ (s.dmode = 0 ∨ 0 < s.width)) ∧
    ((importDoubleLine cmap s).1.isSome ↔ s.dmode ≠ 0) ∧
    (chosenSymbolLine cmap s).isSome = true ∧
    (importLineSymbol cmap s).1.isSome = true := by
  have hm : (importMainLine cmap s).1.isSome ↔ (s.dmode = 0 ∨ 0 < s.width) := by
    unfold importMainLine
    by_cases h : s.dmode = 0 ∨ 0 < s.width
    · simp [h]
    · simp [h]
  have hd : (importDoubleLine cmap s).1.isSome ↔ s.dmode ≠ 0 := by
    unfold importDoubleLine
    by_cases h : s.dmode ≠ 0
    · simp [h]
    · simp [h]
  have hboth : (importMainLine cmap s).1.isSome ∨ (importDoubleLine cmap s).1.isSome := by
    by_cases h0 : s.dmode = 0
    · exact Or.inl (hm.mpr (Or.inl h0))
    · exact Or.inr (hd.mpr h0)
  have hch : (chosenSymbolLine cmap s).isSome = true := by
    unfold chosenSymbolLine
    rcases hmm : (importMainLine cmap s).1 with _ | m
    · rcases hdd : (importDoubleLine cmap s).1 with _ | d
      · rcases hboth with hb | hb
        · rw [hmm] at hb; simp at hb
        · rw [hdd] at hb; simp at hb
      · simp [hdd]
    · simp
  have hls : (importLineSymbol cmap s).1.isSome = true := by
    rcases hmm : (importMainLine cmap s).1 with _ | m <;>
      rcases hdd : (importDoubleLine cmap s).1 with _ | d <;>
      simp [importLineSymbol, hmm, hdd]
    rcases hboth with hb | hb
    · rw [hmm] at hb; simp at hb
    · rw [hdd] at hb; simp at hb
  exact ⟨hm, hd, hch, hls⟩

/-- Witness for C10 at a line symbol with `dmode = 0` and `width = 0`
(the main line is still created). -/
theorem C10_line_symbol_never_null_witness :
    (((importMainLine [] {}).1.isSome ↔
        (({} : OCADLineSymbol).dmode = 0 ∨ 0 < ({} : OCADLineSymbol).width)) ∧
      ((importDoubleLine [] {}).1.isSome ↔ ({} : OCADLineSymbol).dmode ≠ 0) ∧
      (chosenSymbolLine [] {}).isSome = true ∧
      (importLineSymbol [] {}).1.isSome = true) :=
  C10_line_symbol_never_null [] {}

/-! ## C4 -/

/-- C4: the default dash sub-case — a legacy line symbol with
`len = 100`, `gap = 20`, `gap2 = 0`, `elen = 100` (its color registered)
decodes to a dashed line with `dash_length = convertSize 100`,
`break_length = convertSize 20`, `dashes_in_group = 1`, and no warnings
are emitted. -/
theorem C4_dash_default_decode :
    (importLineSymbol [(0, 1)]
      { len := 100, gap := 20, gap2 := 0, elen := 100 }).2 = [] ∧
    ((importLineSymbol [(0, 1)]
      { len := 100, gap := 20, gap2 := 0, elen := 100 }).1.map
        (fun r => (r.mainPart.dashed, r.mainPart.dash_length,
          r.mainPart.break_length, r.mainPart.dashes_in_group)))
      = some (true, importConvertSize 100, importConvertSize 20, 1) :=
  ⟨rfl, rfl⟩

/-! ## C8 -/

theorem importPatternStep_multiple_fields (cmap : ColorMap) (sym : PointSymbolM)
    (elt : OCADElement) :
    (importPatternStep cmap true sym elt).1.inner_color = sym.inner_color ∧
    (importPatternStep cmap true sym elt).1.inner_radius = sym.inner_radius ∧
    (importPatternStep cmap true sym elt).1.outer_color = sym.outer_color ∧
    (importPatternStep cmap true sym elt).1.outer_width = sym.outer_width := by
  simp only [importPatternStep]
  split_ifs <;> simp

theorem importPatternLoop_false_fields (cmap : ColorMap) (elems : List OCADElement) :
    ∀ sym : PointSymbolM,
      (importPatternLoop cmap elems false sym).1.inner_color = sym.inner_color ∧
      (importPatternLoop cmap elems false sym).1.inner_radius = sym.inner_radius ∧
      (importPatternLoop cmap elems false sym).1.outer_color = sym.outer_color ∧
      (importPatternLoop cmap elems false sym).1.outer_width = sym.outer_width := by
  induction elems with
  | nil => intro sym; simp [importPatternLoop]
  | cons elt rest ih =>
    intro sym
    simp only [importPatternLoop, Bool.not_false, Bool.or_true]
    obtain ⟨h1, h2, h3, h4⟩ := ih (importPatternStep cmap true sym elt).1
    obtain ⟨g1, g2, g3, g4⟩ := importPatternStep_multiple_fields cmap sym elt
    exact ⟨h1.trans g1, h2.trans g2, h3.trans g3, h4.trans g4⟩

/-- C8 counterexample: the pattern `[dot(diameter 0), dot(diameter 20)]`
has exactly one drawable element (the zero-diameter dot draws nothing),
yet the import creates a nested point symbol for the second dot instead
of collapsing it into the parent — the decision is made from the
element count in the buffer, not from drawability. This refutes the
claim that a sub-element becomes its own nested point symbol only when
more than one drawable element exists. -/
theorem C8_nested_symbol_counterexample :
    specDrawableCount [{ typ := 4, diameter := 0 }, { typ := 4, diameter := 20 }] = 1 ∧
    ((importPattern [(0, 5)]
        [{ typ := 4, diameter := 0 }, { typ := 4, diameter := 20 }]).1.elements.map
      isPointElem) = [true] ∧
    (importPattern [(0, 5)]
        [{ typ := 4, diameter := 0 }, { typ := 4, diameter := 20 }]).1.inner_radius = 0 :=
  ⟨rfl, rfl, rfl⟩

/-- C8 (amended): a dot or circle sub-element becomes its own nested
point symbol only when the pattern buffer holds more than one element,
drawable or not; when the pattern is a lone element, no nested point
symbol is created — a lone dot with positive converted radius is
collapsed directly into the parent's inner-circle fields, and a lone
circle with positive converted width and remaining inner radius is
collapsed directly into the parent's inner/outer-circle fields. -/
theorem C8_lone_element_collapse (cmap : ColorMap) (elems : List OCADElement) :
    (1 < elems.length →
      (importPattern cmap elems).1.inner_color = none ∧
      (importPattern cmap elems).1.inner_radius = 0 ∧
      (importPattern cmap elems).1.outer_color = none ∧
      (importPattern cmap elems).1.outer_width = 0) ∧
    (∀ e, elems = [e] →
      ∀ pe ∈ (importPattern cmap elems).1.elements, isPointElem pe = false) ∧
    (∀ d c, elems = [{ typ := 4, diameter := d, color := c }] →
      0 < (importConvertSize d).tdiv 2 →
      (importPattern cmap elems).1.elements = [] ∧
      (importPattern cmap elems).1.inner_radius = (importConvertSize d).tdiv 2 ∧
      (importPattern cmap elems).1.inner_color = (importConvertColor cmap c).1) ∧
    (∀ d w c, elems = [{ typ := 3, width := w, diameter := d, color := c }] →
      0 < importConvertSize w →
      0 < (importConvertSize d).tdiv 2 - importConvertSize w →
      (importPattern cmap elems).1.elements = [] ∧
      (importPattern cmap elems).1.inner_color = none ∧
      (importPattern cmap elems).1.inner_radius
        = (importConvertSize d).tdiv 2 - importConvertSize w ∧
      (importPattern cmap elems).1.outer_color = (importConvertColor cmap c).1 ∧
      (importPattern cmap elems).1.outer_width = importConvertSize w) := by
  refine ⟨?_, ?_, ?_, ?_⟩
  · intro hlen
    match elems, hlen with
    | e :: f :: rest, _ =>
      simp only [importPattern, importPatternLoop, List.isEmpty_cons,
        Bool.not_false, Bool.not_true, Bool.or_false]
      obtain ⟨h1, h2, h3, h4⟩ := importPatternLoop_false_fields cmap (f :: rest)
        (importPatternStep cmap true { rotatable := true } e).1
      obtain ⟨g1, g2, g3, g4⟩ :=
        importPatternStep_multiple_fields cmap { rotatable := true } e
      exact ⟨h1.trans g1, h2.trans g2, h3.trans g3, h4.trans g4⟩
  · rintro e rfl pe hpe
    simp only [importPattern, importPatternLoop, List.isEmpty_nil, Bool.not_true,
      Bool.or_self, importPatternStep] at hpe
    split_ifs at hpe <;>
      simp_all [importPatternLoop, isPointElem]
  · rintro d c rfl hpos
    simp only [importPattern, importPatternLoop, List.isEmpty_nil, Bool.not_true,
      Bool.or_self, importPatternStep]
    simp [hpos, importPatternLoop]
  · rintro d w c rfl hw hr
    simp only [importPattern, importPatternLoop, List.isEmpty_nil, Bool.not_true,
      Bool.or_self, importPatternStep]
    simp [hw, hr, importPatternLoop]

/-- Witness for C8 (amended) at a two-element pattern, a lone dot, and
a lone circle. -/
theorem C8_lone_element_collapse_witness :
    ((importPattern [] [{ typ := 4, diameter := 20 }, { typ := 1 }]).1.inner_radius = 0) ∧
    ((importPattern [] [{ typ := 4, diameter := 20, color := 0 }]).1.elements = [] ∧
      (importPattern []
        [{ typ := 4, diameter := 20, color := 0 }]).1.inner_radius = 100) ∧
    ((importPattern []
        [{ typ := 3, width := 10, diameter := 40, color := 0 }]).1.elements = [] ∧
      (importPattern []
        [{ typ := 3, width := 10, diameter := 40, color := 0 }]).1.inner_radius = 100 ∧
      (importPattern []
        [{ typ := 3, width := 10, diameter := 40, color := 0 }]).1.outer_width = 100) := by
  have h1 := (C8_lone_element_collapse []
    [{ typ := 4, diameter := 20 }, { typ := 1 }]).1 (by norm_num)
  have h3 := (C8_lone_element_collapse []
    [{ typ := 4, diameter := 20, color := 0 }]).2.2.1 20 0 rfl (by decide)
  have h4 := (C8_lone_element_collapse []
    [{ typ := 3, width := 10, diameter := 40, color := 0 }]).2.2.2 40 10 0 rfl
    (by decide) (by decide)
  exact ⟨h1.2.1, ⟨h3.1, by rw [h3.2.1]; rfl⟩,
    h4.1, by rw [h4.2.2.1]; rfl, by rw [h4.2.2.2.2]; rfl⟩

/-! ## C3 (closed-part detection) -/

theorem startFrom_of_le (cs : List MapCoordM) (s i : ℕ) :
    ∀ j, j ≤ i → startFrom cs s i j = s
  | 0, _ => rfl
  | j + 1, h => by
    simp only [startFrom]
    rw [if_pos h]

theorem startFrom_self (cs : List MapCoordM) (s i : ℕ) : startFrom cs s i i = s :=
  startFrom_of_le cs s i i (le_refl i)

theorem startFrom_congr_notEnd (cs : List MapCoordM) (s i : ℕ)
    (hEnd : isEndB cs i = false) :
    ∀ j, i < j → startFrom cs s i j = startFrom cs s (i + 1) j := by
  intro j
  induction j with
  | zero => intro h; exact absurd h (Nat.not_lt_zero i)
  | succ j ih =>
    intro h
    rcases Nat.lt_or_ge i j with hij | hij
    · simp only [startFrom]
      rw [if_neg (show ¬ j + 1 ≤ i by omega), if_neg (show ¬ j + 1 ≤ i + 1 by omega)]
      by_cases hE : isEndB cs j
      · rw [if_pos hE, if_pos hE]
      · rw [if_neg hE, if_neg hE, ih hij]
    · have hi : i = j := by omega
      subst hi
      simp only [startFrom]
      rw [if_neg (show ¬ i + 1 ≤ i by omega),
        if_neg (show ¬ isEndB cs i = true by simp [hEnd]), startFrom_self,
        if_pos (le_refl (i + 1))]

theorem startFrom_congr_end (cs : List MapCoordM) (s i : ℕ)
    (hEnd : isEndB cs i = true) :
    ∀ j, i < j → startFrom cs s i j = startFrom cs (i + 1) (i + 1) j := by
  intro j
  induction j with
  | zero => intro h; exact absurd h (Nat.not_lt_zero i)
  | succ j ih =>
    intro h
    rcases Nat.lt_or_ge i j with hij | hij
    · simp only [startFrom]
      rw [if_neg (show ¬ j + 1 ≤ i by omega),
        if_neg (show ¬ j + 1 ≤ i + 1 by omega)]
      by_cases hE : isEndB cs j
      · rw [if_pos hE, if_pos hE]
      · rw [if_neg hE, if_neg hE, ih hij]
    · have hi : i = j := by omega
      subst hi
      simp only [startFrom]
      rw [if_neg (show ¬ i + 1 ≤ i by omega), if_pos hEnd, if_pos (le_refl (i + 1))]

theorem startFrom_congr_of_isEndB (cs cs' : List MapCoordM)
    (h : ∀ k, isEndB cs' k = isEndB cs k) (s i : ℕ) :
    ∀ j, startFrom cs' s i j = startFrom cs s i j := by
  intro j
  induction j with
  | zero => rfl
  | succ j ih => simp only [startFrom, h j, ih]

theorem getD_set_ne (cs : List MapCoordM) (i j : ℕ) (v : MapCoordM) (h : i ≠ j) :
    (cs.set i v).getD j default = cs.getD j default := by
  rw [List.getD_eq_getElem?_getD, List.getD_eq_getElem?_getD, List.getElem?_set_ne h]

theorem getD_set_self (cs : List MapCoordM) (i : ℕ) (v : MapCoordM)
    (h : i < cs.length) : (cs.set i v).getD i default = v := by
  rw [List.getD_eq_getElem?_getD, List.getElem?_set_self h]
  rfl

theorem isEndB_set_close (cs : List MapCoordM) (i : ℕ) (h : i < cs.length) :
    ∀ j, isEndB (cs.set i (setClosePoint (cs.getD i default))) j = isEndB cs j := by
  intro j
  unfold isEndB
  rw [List.length_set]
  by_cases hij : i = j
  · subst hij
    rw [getD_set_self _ _ _ h]
    rfl
  · rw [getD_set_ne _ _ _ _ hij]

theorem pos_set_close_getD (cs : List MapCoordM) (i : ℕ) (h : i < cs.length)
    (a : MapCoordM) :
    ∀ m, isPositionEqualTo a
        ((cs.set i (setClosePoint (cs.getD i default))).getD m default) =
      isPositionEqualTo a (cs.getD m default) := by
  intro m
  by_cases him : i = m
  · subst him
    rw [getD_set_self _ _ _ h]
    rfl
  · rw [getD_set_ne _ _ _ _ him]

/-- Characterization of the closed-part loop: entered at index `i` with
start value `s` and enough fuel, it leaves indices below `i` unchanged
and, at each index `j ≥ i`, marks the point as close point exactly when
`j` ends a partition and its position equals the position of the
partition's start (`startFrom`). -/
theorem closeLoopAux_char (fuel : ℕ) :
    ∀ (cs : List MapCoordM) (s i : ℕ), cs.length ≤ fuel + i →
    ∀ j, (closeLoopAux fuel cs s i)[j]? =
      if j < i then cs[j]?
      else (cs[j]?).map (fun cj =>
        if (isEndB cs j &&
            isPositionEqualTo cj (cs.getD (startFrom cs s i j) default)) = true
        then setClosePoint cj else cj) := by
  induction fuel with
  | zero =>
    intro cs s i hfuel j
    simp only [closeLoopAux]
    by_cases hj : j < i
    · rw [if_pos hj]
    · rw [if_neg hj, List.getElem?_eq_none_iff.mpr (by omega)]
      rfl
  | succ f ih =>
    intro cs s i hfuel j
    simp only [closeLoopAux]
    by_cases hi : i < cs.length
    · rw [if_pos hi]
      by_cases hcont : (cs.getD i default).holePoint = false ∧ i < cs.length - 1
      · rw [if_pos hcont]
        have hEnd : isEndB cs i = false := by
          unfold isEndB
          rw [hcont.1]
          simpa using by omega
        rw [ih cs s (i + 1) (by omega) j]
        by_cases hj : j < i
        · rw [if_pos (by omega), if_pos hj]
        · by_cases hj2 : j = i
          · subst hj2
            rw [if_pos (by omega), if_neg (lt_irrefl j)]
            simp [hEnd]
          · have hij : i < j := by omega
            rw [if_neg (by omega), if_neg (by omega),
              startFrom_congr_notEnd cs s i hEnd j hij]
      · rw [if_neg hcont]
        have hEnd : isEndB cs i = true := by
          unfold isEndB
          by_cases hh : (cs.getD i default).holePoint = true
          · rw [hh]
            rfl
          · have h1 : (cs.getD i default).holePoint = false := by simpa using hh
            have h2 : i = cs.length - 1 := by
              rcases not_and_or.mp hcont with hc | hc
              · exact absurd h1 hc
              · omega
            rw [h1, h2]
            simp
        set cs' := if isPositionEqualTo (cs.getD i default) (cs.getD s default)
          then cs.set i (setClosePoint (cs.getD i default)) else cs with hcs'
        have hlen' : cs'.length = cs.length := by
          rw [hcs']
          split <;> simp
        have hend' : ∀ k, isEndB cs' k = isEndB cs k := by
          intro k
          rw [hcs']
          split
          · exact isEndB_set_close cs i hi k
          · rfl
        have hpos' : ∀ (a : MapCoordM) (m : ℕ),
            isPositionEqualTo a (cs'.getD m default) =
              isPositionEqualTo a (cs.getD m default) := by
          intro a m
          rw [hcs']
          split
          · exact pos_set_close_getD cs i hi a m
          · rfl
        have hget' : ∀ k, k ≠ i → cs'[k]? = cs[k]? := by
          intro k hk
          rw [hcs']
          split
          · exact List.getElem?_set_ne (Ne.symm hk)
          · rfl
        have hgeti : cs'[i]? = some
            (if isPositionEqualTo (cs.getD i default) (cs.getD s default)
              then setClosePoint (cs.getD i default) else cs.getD i default) := by
          rw [hcs']
          split
          · rw [List.getElem?_set_self hi]
          · rw [List.getElem?_eq_getElem hi, List.getD_eq_getElem cs default hi]
        rw [ih cs' (i + 1) (i + 1) (by omega) j]
        by_cases hj : j < i
        · rw [if_pos (by omega), if_pos hj, hget' j (by omega)]
        · by_cases hj2 : j = i
          · subst hj2
            rw [if_pos (by omega), if_neg (lt_irrefl j), hgeti,
              List.getElem?_eq_getElem hi, startFrom_self, hEnd,
              ← List.getD_eq_getElem cs default hi]
            simp
          · have hij : i < j := by omega
            rw [if_neg (by omega), if_neg (by omega), hget' j hj2]
            simp only [hend' j, hpos']
            rw [startFrom_congr_of_isEndB cs cs' hend' (i + 1) (i + 1) j,
              ← startFrom_congr_end cs s i hEnd j hij]
    · rw [if_neg hi]
      by_cases hj : j < i
      · rw [if_pos hj]
      · rw [if_neg hj, List.getElem?_eq_none_iff.mpr (by omega)]
        rfl

theorem setLast_preserve (f : MapCoordM → MapCoordM)
    (hf : ∀ c : MapCoordM, c.closePoint = false → (f c).closePoint = false) :
    ∀ cs, (∀ c ∈ cs, c.closePoint = false) →
      ∀ c ∈ setLast f cs, c.closePoint = false
  | [], _ => by simp [setLast]
  | [c], h => by
    simp only [setLast, List.mem_singleton]
    rintro x rfl
    exact hf c (h c (by simp))
  | c :: d :: tl, h => by
    simp only [setLast]
    intro x hx
    rcases List.mem_cons.mp hx with rfl | hx
    · exact h x (by simp)
    · exact setLast_preserve f hf (d :: tl)
        (fun y hy => h y (List.mem_cons_of_mem _ hy)) x hx

theorem fillFlagsStep_closePoint (is_area : Bool) (acc : List MapCoordM)
    (p : OCADPointD) (h : ∀ c ∈ acc, c.closePoint = false) :
    ∀ c ∈ fillFlagsStep is_area acc p, c.closePoint = false := by
  simp only [fillFlagsStep]
  intro c hc
  rcases List.mem_append.mp hc with hc | hc
  · have h1 : ∀ x ∈ (if p.ctl1 = true
        then setLast (fun c => { c with curveStart := true }) acc else acc),
        x.closePoint = false := by
      split
      · exact setLast_preserve (fun c => { c with curveStart := true })
          (fun y hy => hy) acc h
      · exact h
    revert hc
    split
    · exact fun hc => setLast_preserve (fun c => { c with holePoint := true })
        (fun y hy => hy) _ h1 c hc
    · exact fun hc => h1 c hc
  · have : c = { importConvertPoint p.x p.y with
        dashPoint := p.dash || p.corner,
        holePoint := p.hole && !is_area } := by simpa using hc
    rw [this]
    rfl

theorem fillFlags_closePoint (is_area : Bool) (pts : List OCADPointD) :
    ∀ c ∈ fillFlags is_area pts, c.closePoint = false := by
  unfold fillFlags
  suffices h : ∀ acc, (∀ c ∈ acc, c.closePoint = false) →
      ∀ c ∈ pts.foldl (fillFlagsStep is_area) acc, c.closePoint = false by
    exact h [] (by simp)
  induction pts with
  | nil => intro acc hacc; simpa using hacc
  | cons p rest ih =>
    intro acc hacc
    rw [List.foldl_cons]
    exact ih _ (fillFlagsStep_closePoint is_area acc p hacc)

theorem fillFlags_closePoint_getD (is_area : Bool) (pts : List OCADPointD) (j : ℕ) :
    ((fillFlags is_area pts).getD j default).closePoint = false := by
  by_cases hj : j < (fillFlags is_area pts).length
  · rw [List.getD_eq_getElem _ _ hj]
    exact fillFlags_closePoint is_area pts _ (List.getElem_mem hj)
  · rw [List.getD_eq_default _ _ (by omega)]
    rfl

/-- C3: closed-part detection on imported path objects. The imported
point sequence is partitioned at hole-flagged points (the end of the
sequence also ends a partition, `isEndB`); the last point of a
partition is marked as close point exactly when its position equals the
position of the partition's start point (`partStart`) — and position
equality of converted points is raw integer equality of the legacy
coordinates. Concretely, a 4-point path whose last raw point equals its
first is marked closed, and one with a 1-unit difference is not. -/
theorem C3_closed_part_detection :
    (∀ (is_area : Bool) (pts : List OCADPointD) (j : ℕ), j < pts.length →
      ((fillPathCoords true is_area pts.length pts).getD j default).closePoint =
        (isEndB (fillFlags is_area (padPoints pts.length pts)) j &&
          isPositionEqualTo
            ((fillFlags is_area (padPoints pts.length pts)).getD j default)
            ((fillFlags is_area (padPoints pts.length pts)).getD
              (partStart (fillFlags is_area (padPoints pts.length pts)) j)
              default))) ∧
    (∀ p q : OCADPointD,
      isPositionEqualTo (importConvertPoint p.x p.y) (importConvertPoint q.x q.y) =
        (p.x == q.x && p.y == q.y)) ∧
    ((fillPathCoords true false 4
      [{ x := 0, y := 0 }, { x := 50, y := 0 }, { x := 50, y := 50 },
        { x := 0, y := 0 }]).getD 3 default).closePoint = true ∧
    ((fillPathCoords true false 4
      [{ x := 0, y := 0 }, { x := 50, y := 0 }, { x := 50, y := 50 },
        { x := 1, y := 0 }]).getD 3 default).closePoint = false := by
  refine ⟨?_, ?_, by decide, by decide⟩
  · intro a pts j hj
    set cs := fillFlags a (padPoints pts.length pts) with hcs
    have hlen : cs.length = pts.length := by
      rw [hcs, fillFlags_length, padPoints_length]
    have hred : fillPathCoords true a pts.length pts = closeLoopAux cs.length cs 0 0 := by
      rw [hcs]
      simp [fillPathCoords]
    rw [hred, List.getD_eq_getElem?_getD,
      closeLoopAux_char cs.length cs 0 0 (by omega) j, if_neg (Nat.not_lt_zero j),
      List.getElem?_eq_getElem (show j < cs.length by omega)]
    simp only [Option.map_some', Option.getD_some, partStart]
    rw [← List.getD_eq_getElem cs default (show j < cs.length by omega)]
    by_cases hc : (isEndB cs j && isPositionEqualTo (cs.getD j default)
        (cs.getD (startFrom cs 0 0 j) default)) = true
    · rw [if_pos hc, hc]
      rfl
    · rw [if_neg hc, (Bool.not_eq_true _).mp hc, hcs, fillFlags_closePoint_getD]
  · intro p q
    rw [Bool.eq_iff_iff]
    simp only [isPositionEqualTo, importConvertPoint, zero_add, Bool.and_eq_true,
      beq_iff_eq]
    omega

/-- Witness for C3: the closed four-point path, via the general
characterization at `j = 3`. -/
theorem C3_closed_part_detection_witness :
    ((fillPathCoords true false
      ([{ x := 0, y := 0 }, { x := 50, y := 0 }, { x := 50, y := 50 },
        { x := 0, y := 0 }] : List OCADPointD).length
      [{ x := 0, y := 0 }, { x := 50, y := 0 }, { x := 50, y := 50 },
        { x := 0, y := 0 }]).getD 3 default).closePoint = true := by
  rw [C3_closed_part_detection.1 false
    [{ x := 0, y := 0 }, { x := 50, y := 0 }, { x := 50, y := 50 },
      { x := 0, y := 0 }] 3 (by decide)]
  decide
